import Mathlib

/-!
Verification of the lottery number-set generator repository.

The Python sources under src/core are shallowly embedded below.  Machine
numbers are modelled as Nat; the floating-point weight arithmetic of the
generator is modelled over the rationals.  Calls to numpy sampling routines
(np.random.choice with replace=False) are nondeterministic: each call is
parameterised by an oracle supplying the drawn sample, and returns none in
every state in which numpy raises (sample larger than population, malformed
probability vector); the probability argument p only influences which sample
the oracle yields, never the shape of a successful result, so it is absorbed
into the oracle.  Python exceptions are modelled by Option: none means the
call raised.
-/

namespace Lotto

/-- Configuration fields used by the core (models.config.LotteryConfig,
restricted to the fields the analyzer, generator and validator read).
The three weight factors are rationals, modelling the Python floats. -/
structure Config where
  number_pool : Nat
  numbers_to_select : Nat
  frequency_weight : Rat
  recent_weight : Rat
  random_weight : Rat
  low_number_max : Nat
  test_draws : Nat
  alert_threshold : Nat
  sets_to_generate : Nat
deriving DecidableEq

/-- The pydantic constraints of config/schemas.py on the fields above:
number_pool and numbers_to_select are conint(gt=1), the weight factors are
confloat(ge=0, le=1), low_number_max, test_draws and sets_to_generate are
positive, alert_threshold is conint(ge=1, le=6). -/
def Config.Valid (cfg : Config) : Prop :=
  1 < cfg.number_pool ∧ 1 < cfg.numbers_to_select ∧
  0 ≤ cfg.frequency_weight ∧ cfg.frequency_weight ≤ 1 ∧
  0 ≤ cfg.recent_weight ∧ cfg.recent_weight ≤ 1 ∧
  0 ≤ cfg.random_weight ∧ cfg.random_weight ≤ 1 ∧
  0 < cfg.low_number_max ∧ 0 < cfg.test_draws ∧
  1 ≤ cfg.alert_threshold ∧ cfg.alert_threshold ≤ 6 ∧
  0 < cfg.sets_to_generate

instance (cfg : Config) : Decidable cfg.Valid := by
  unfold Config.Valid; infer_instance

/-- analyzer.py number_pool: list(range(1, number_pool + 1)). -/
def number_pool (cfg : Config) : List Nat :=
  List.range' 1 cfg.number_pool

/-- sympy.isprime on a natural number. -/
def isprime (n : Nat) : Bool :=
  decide (Nat.Prime n)

/-- analyzer.py _get_prime_numbers: [n for n in number_pool if isprime(n)]. -/
def prime_numbers (cfg : Config) : List Nat :=
  (number_pool cfg).filter isprime

/-- Model of np.random.choice(pool, size, replace=False, p=w).  The oracle
argument picks supplies the sample numpy would draw; a successful call
returns size pairwise-distinct members of pool.  The call returns none
whenever numpy raises: size exceeds the population, or the oracle does not
describe a drawable sample (covering malformed probability vectors). -/
def np_choice (pool : List Nat) (size : Nat) (picks : List Nat) : Option (List Nat) :=
  if size ≤ pool.length ∧ picks.length = size ∧ picks.Nodup ∧ ∀ x ∈ picks, x ∈ pool
  then some picks else none

/-- generator.py _is_valid_set: exactly numbers_to_select entries, no
duplicates (len(set(numbers)) comparison), all entries within
[1, number_pool]. -/
def is_valid_set (cfg : Config) (numbers : List Nat) : Bool :=
  decide (numbers.length = cfg.numbers_to_select) &&
  decide (numbers.dedup.length = cfg.numbers_to_select) &&
  numbers.all (fun n => decide (1 ≤ n) && decide (n ≤ cfg.number_pool))

/-- generator.py _generate_weighted_random: sorted(np.random.choice(pool,
numbers_to_select, replace=False, p=weights)). -/
def generate_weighted_random (cfg : Config) (ω : List Nat) : Option (List Nat) :=
  (np_choice (number_pool cfg) cfg.numbers_to_select ω).map
    (List.insertionSort (· ≤ ·))

/-- sorted(list(draw1) + list(draw2)): concatenates two sampling results and
sorts, propagating a raise (none) from either draw, in evaluation order. -/
def sorted_concat (a b : Option (List Nat)) : Option (List Nat) :=
  match a, b with
  | some x, some y => some (List.insertionSort (· ≤ ·) (x ++ y))
  | _, _ => none

/-- generator.py _generate_high_low_mix: the pool splits at low_number_max;
floor(numbers_to_select / 2) numbers come from the low part and the rest
from the high part, each drawn without replacement; the concatenation is
returned sorted.  A failed draw (for example an empty high partition)
raises, that is, yields none. -/
def generate_high_low_mix (cfg : Config) (ω : List Nat × List Nat) :
    Option (List Nat) :=
  sorted_concat
    (np_choice ((number_pool cfg).filter (fun n => decide (n ≤ cfg.low_number_max)))
      (cfg.numbers_to_select / 2) ω.1)
    (np_choice ((number_pool cfg).filter (fun n => decide (cfg.low_number_max < n)))
      (cfg.numbers_to_select - cfg.numbers_to_select / 2) ω.2)

/-- generator.py _generate_prime_balanced, the three candidate prime-count
targets: np.random.choice([max(1, len(primes) // 3), len(primes) // 2,
len(primes) // 2 + 1]).  Division is Python floor division. -/
def prime_count_options (primes : List Nat) : List Nat :=
  [max 1 (primes.length / 3), primes.length / 2, primes.length / 2 + 1]

/-- The prime-count targets as the specification words them: one-third of
the available primes rounded up with a minimum of 1, half, and half plus
one.  Stated for comparison with prime_count_options, which is read off the
source. -/
def prime_count_options_spec (primes : List Nat) : List Nat :=
  [max 1 ((primes.length + 2) / 3), primes.length / 2, primes.length / 2 + 1]

/-- generator.py _generate_prime_balanced: the pool splits into primes and
non-primes; the first oracle component selects one of the three prime-count
targets (np.random.choice over the three-element list, uniform); that many
primes and the remaining numbers_to_select - num_primes non-primes are
drawn without replacement and the concatenation is returned sorted.  A
negative remainder makes numpy raise, hence the explicit guard. -/
def generate_prime_balanced (cfg : Config) (ω : Fin 3 × List Nat × List Nat) :
    Option (List Nat) :=
  if cfg.numbers_to_select <
      (prime_count_options (prime_numbers cfg)).getD (ω.1 : Nat) 0 then none
  else
    sorted_concat
      (np_choice (prime_numbers cfg)
        ((prime_count_options (prime_numbers cfg)).getD (ω.1 : Nat) 0) ω.2.1)
      (np_choice ((number_pool cfg).filter (fun n => !((prime_numbers cfg).contains n)))
        (cfg.numbers_to_select -
          (prime_count_options (prime_numbers cfg)).getD (ω.1 : Nat) 0) ω.2.2)

/-- The loop body of generator.py generate_sets for one attempt: a raising
strategy call (none) is swallowed by the try/except and contributes
nothing; a returned candidate is appended only when _is_valid_set accepts
it, tagged with the strategy name. -/
def keep_valid (cfg : Config) (p : Option (List Nat) × String) :
    Option (List Nat × String) :=
  match p.1 with
  | some numbers => if is_valid_set cfg numbers then some (numbers, p.2) else none
  | none => none

/-- generator.py generate_sets: max(1, sets_to_generate // 3) attempts per
strategy; each attempt runs under try/except and its candidate passes the
keep_valid filter.  The three oracle families supply the randomness of the
respective strategies, one entry per attempt. -/
def generate_sets (cfg : Config) (ωwr : Nat → List Nat)
    (ωhl : Nat → List Nat × List Nat) (ωpb : Nat → Fin 3 × List Nat × List Nat) :
    List (List Nat × String) :=
  let sets_per_strategy := max 1 (cfg.sets_to_generate / 3)
  let attempts : List (Option (List Nat) × String) :=
    (List.range sets_per_strategy).map
      (fun i => (generate_weighted_random cfg (ωwr i), "weighted_random"))
    ++ (List.range sets_per_strategy).map
      (fun i => (generate_high_low_mix cfg (ωhl i), "high_low_mix"))
    ++ (List.range sets_per_strategy).map
      (fun i => (generate_prime_balanced cfg (ωpb i), "prime_balanced"))
  attempts.filterMap (keep_valid cfg)

/-- A concrete configuration used by witnesses: pool 1..10, draws of 3. -/
def cfg10 : Config :=
  { number_pool := 10, numbers_to_select := 3,
    frequency_weight := 2/5, recent_weight := 1/5, random_weight := 2/5,
    low_number_max := 5, test_draws := 1, alert_threshold := 3,
    sets_to_generate := 3 }

/-- Witness oracle for the weighted-random strategy. -/
def wr_oracle : Nat → List Nat := fun _ => [2, 1, 3]

/-- Witness oracle for the high-low strategy. -/
def hl_oracle : Nat → List Nat × List Nat := fun _ => ([1], [6, 7])

/-- Witness oracle for the prime-balanced strategy. -/
def pb_oracle : Nat → Fin 3 × List Nat × List Nat := fun _ => (0, [5], [4, 6])

/-- A concrete configuration whose high partition is empty:
low_number_max 10 covers the whole pool 1..5. -/
def cfg_lowall : Config :=
  { number_pool := 5, numbers_to_select := 2,
    frequency_weight := 1/2, recent_weight := 1/2, random_weight := 1/2,
    low_number_max := 10, test_draws := 1, alert_threshold := 2,
    sets_to_generate := 3 }

/-- analyzer.py analyze_frequency: pd.Series(values.flatten())
.value_counts().sort_index().  A historical table is modelled as the list
of its draws, each draw the list of its numbers_to_select numbers; the
result lists the distinct numbers that appear, in ascending order, each
with its count.  A number that never appears has no entry. -/
def analyze_frequency (hist : List (List Nat)) : List (Nat × Nat) :=
  (List.insertionSort (· ≤ ·) hist.flatten.dedup).map
    (fun v => (v, hist.flatten.count v))

/-- analyzer.py, inside analyze_recency: historical[mask].index.max(), the
greatest row index whose draw contains num; an all-false mask leaves an
empty frame whose index.max() is NaN, modelled by ⊥. -/
def last_occurrence (hist : List (List Nat)) (num : Nat) : WithBot Nat :=
  ((List.range hist.length).filter
    (fun i => decide (num ∈ hist.getD i []))).maximum

/-- analyzer.py analyze_recency: loops over the whole pool and stores
total_draws - index.get_loc(last_occurrence) - 1 for each number.  When
some pool number never appears, last_occurrence is NaN and
index.get_loc(NaN) raises KeyError, aborting the entire call: none. -/
def analyze_recency (cfg : Config) (hist : List (List Nat)) :
    Option (List (Nat × Nat)) :=
  if (number_pool cfg).all (fun n => decide (last_occurrence hist n ≠ ⊥)) then
    some ((number_pool cfg).map
      (fun n => (n, hist.length - (last_occurrence hist n).unbot' 0 - 1)))
  else none

/-- The two-draw historical table of the specification scenario:
draws {1,2,3} then {4,5,6} over pool 1..10. -/
def hist2 : List (List Nat) := [[1, 2, 3], [4, 5, 6]]

/-- A configuration with pool 1..3 whose witness table covers the pool. -/
def cfg3 : Config :=
  { number_pool := 3, numbers_to_select := 3,
    frequency_weight := 1/2, recent_weight := 1/2, random_weight := 1/2,
    low_number_max := 1, test_draws := 1, alert_threshold := 1,
    sets_to_generate := 1 }

/-- A table over pool 1..3 in which every pool number appears. -/
def hist3 : List (List Nat) := [[1, 2, 3], [3, 1, 2]]

/-- A valid configuration over pool 1..2 with all three weight factors
zero, keeping the weight-vector witness arithmetic small. -/
def cfg0 : Config :=
  { number_pool := 2, numbers_to_select := 2,
    frequency_weight := 0, recent_weight := 0, random_weight := 0,
    low_number_max := 1, test_draws := 1, alert_threshold := 1,
    sets_to_generate := 1 }

/-- The one-draw table [[1, 2]] covering pool 1..2. -/
def hist1 : List (List Nat) := [[1, 2]]

/-- models/results.py ValidationResult, restricted to the fields the
validation loop builds (the percentage strings are presentation only).
match_counts models the Python dict initialised to 0 on keys 0..6. -/
structure ValidationResult where
  draws_tested : Nat
  match_counts : List (Nat × Nat)
  best_per_draw : List Nat
  high_performance_sets : List (List Nat)
deriving DecidableEq

/-- Python dict update d[key] += 1 on an association list: increments the
value at key, raising KeyError (none) when the key is absent. -/
def dict_incr : List (Nat × Nat) → Nat → Option (List (Nat × Nat))
  | [], _ => none
  | (k, v) :: rest, key =>
    if k = key then some ((k, v + 1) :: rest)
    else (dict_incr rest key).map (fun d => (k, v) :: d)

/-- The sum of all values of a match-count dict. -/
def dict_sum (d : List (Nat × Nat)) : Nat :=
  (d.map (fun p => p.2)).sum

/-- validator.py: matches = len(set(generated_set) & target), the number of
distinct candidate entries that also occur in the tested draw. -/
def match_count (generated_set : List Nat) (target : List Nat) : Nat :=
  (generated_set.dedup.filter (fun n => decide (n ∈ target))).length

/-- The inner loop of validate_against_historical over the candidate sets
for one tested draw: bumps the match-count bucket (KeyError aborts), tracks
the running best match, and appends high performers at or above
alert_threshold. -/
def process_sets (cfg : Config) (target : List Nat) :
    List (List Nat × String) → List (Nat × Nat) → Nat → List (List Nat) →
    Option (List (Nat × Nat) × Nat × List (List Nat))
  | [], mc, best, hp => some (mc, best, hp)
  | (gs, _) :: rest, mc, best, hp =>
    match dict_incr mc (match_count gs target) with
    | none => none
    | some mc2 =>
      process_sets cfg target rest mc2 (max best (match_count gs target))
        (if cfg.alert_threshold ≤ match_count gs target then hp ++ [gs] else hp)

/-- The outer loop of validate_against_historical over the tested draws,
recording the best match per draw. -/
def process_draws (cfg : Config) (sets : List (List Nat × String)) :
    List (List Nat) → List (Nat × Nat) → List Nat → List (List Nat) →
    Option (List (Nat × Nat) × List Nat × List (List Nat))
  | [], mc, best, hp => some (mc, best, hp)
  | draw :: rest, mc, best, hp =>
    match process_sets cfg draw sets mc 0 hp with
    | none => none
    | some (mc2, b, hp2) => process_draws cfg sets rest mc2 (best ++ [b]) hp2

/-- validator.py validate_against_historical, window selection:
test_draws = min(configured test_draws, len(historical) - 1) and
test_data = historical.iloc[-test_draws-1:-1], the test_draws rows
immediately before the final row. -/
def test_window (cfg : Config) (hist : List (List Nat)) : List (List Nat) :=
  hist.dropLast.drop (hist.length - 1 - min cfg.test_draws (hist.length - 1))

/-- validator.py validate_against_historical: runs the nested loops over
the test window starting from the all-zero seven-bucket dict; a KeyError
(match count outside 0..6) aborts the whole call. -/
def validate_against_historical (cfg : Config) (hist : List (List Nat))
    (sets : List (List Nat × String)) : Option ValidationResult :=
  match process_draws cfg sets (test_window cfg hist)
      ((List.range 7).map (fun i => (i, 0))) [] [] with
  | none => none
  | some (mc, best, hp) =>
    some { draws_tested := (test_window cfg hist).length,
           match_counts := mc, best_per_draw := best,
           high_performance_sets := hp }

/-- A one-candidate collection for the validator witnesses. -/
def setsW : List (List Nat × String) := [([1, 2, 3], "weighted_random")]

/-- The ValidationResult of running the witness collection setsW against
hist2 under cfg10. -/
def resultW : ValidationResult :=
  { draws_tested := 1,
    match_counts := [(0, 0), (1, 0), (2, 0), (3, 1), (4, 0), (5, 0), (6, 0)],
    best_per_draw := [3],
    high_performance_sets := [[1, 2, 3]] }

/-- data_handler.py _validate_data: for each number column j, any row whose
value in that column lies below 1 or above number_pool makes the call
raise.  Nothing else is checked; in particular duplicates within a row are
not examined. -/
def validate_data (cfg : Config) (df : List (List Nat)) : Bool :=
  (List.range cfg.numbers_to_select).all (fun j =>
    df.all (fun row =>
      decide (1 ≤ row.getD j 0) && decide (row.getD j 0 ≤ cfg.number_pool)))

/-- data_handler.py _load_historical, after the CSV parsing that the
specification treats as an I/O adapter: the parsed rows either pass
_validate_data in full or the whole load raises (none); a partial table is
never produced. -/
def load_historical (cfg : Config) (rows : List (List Nat)) :
    Option (List (List Nat)) :=
  if validate_data cfg rows then some rows else none

/-- generator.py _calculate_recent_counts: the most recent int(len * 0.2)
draws, value-counted and reindexed over the pool with fill 0.  For lengths
below 5 the slice size is 0 and iloc[-0:] is the WHOLE table, -0 being 0 in
Python; int(len * 0.2) equals len // 5 for every table length a double
represents exactly. -/
def calculate_recent_counts (cfg : Config) (hist : List (List Nat)) : List Nat :=
  (number_pool cfg).map (fun n =>
    (if hist.length / 5 = 0 then hist
     else hist.drop (hist.length - hist.length / 5)).flatten.count n)

/-- The frequency block of generator.py _calculate_initial_weights:
weights = np.ones(number_pool); if the frequency Series is non-empty,
weights += (freq / freq.sum()) * frequency_weight * 10.  The Series holds
one entry per appearing number, and numpy combines it with the length-N
weights array positionally, raising ValueError (none) unless the lengths
agree. -/
def freq_step (cfg : Config) (hist : List (List Nat)) : Option (List Rat) :=
  if analyze_frequency hist = [] then some (List.replicate cfg.number_pool 1)
  else if (analyze_frequency hist).length = cfg.number_pool then
    some (List.zipWith
      (fun x c => x + c / (((analyze_frequency hist).map
        (fun (p : Nat × Nat) => (p.2 : Rat))).sum) * cfg.frequency_weight * 10)
      (List.replicate cfg.number_pool 1)
      ((analyze_frequency hist).map (fun (p : Nat × Nat) => (p.2 : Rat))))
  else none

/-- The recency block: weights += (recent / recent.sum()).fillna(0) *
recent_weight * 5.  recent is reindexed over the pool so the lengths always
agree; a zero total yields NaN entries that fillna turns into 0, which
rational division by zero reproduces exactly. -/
def recent_step (cfg : Config) (hist : List (List Nat)) (w1 : List Rat) : List Rat :=
  List.zipWith
    (fun x c => x + c / (((calculate_recent_counts cfg hist).map
      (fun (c2 : Nat) => (c2 : Rat))).sum) * cfg.recent_weight * 5)
    w1 ((calculate_recent_counts cfg hist).map (fun (c2 : Nat) => (c2 : Rat)))

/-- The random block: weights += (dirichlet(ones(N)) * 0.7) * random_weight
* 15, the Dirichlet sample d supplied as an oracle. -/
def random_step (cfg : Config) (d : List Rat) (w2 : List Rat) : List Rat :=
  List.zipWith (fun x r => x + r * (7/10) * cfg.random_weight * 15) w2 d

/-- The final normalisation of _calculate_initial_weights:
weights / weights.sum(). -/
def normalize (w3 : List Rat) : List Rat :=
  w3.map (fun x => x / w3.sum)

/-- generator.py _calculate_initial_weights assembled from its blocks, over
exact rationals; numpy raises (none) on the positional length mismatch of
the frequency step or — impossible for a genuine dirichlet sample — a
perturbation vector of the wrong length. -/
def calculate_initial_weights (cfg : Config) (hist : List (List Nat))
    (d : List Rat) : Option (List Rat) :=
  match freq_step cfg hist with
  | none => none
  | some w1 =>
    if d.length = cfg.number_pool then
      some (normalize (random_step cfg d (recent_step cfg hist w1)))
    else none

/- ================= helper lemmas ================= -/

theorem is_valid_set_nodup {cfg : Config} {s : List Nat}
    (h : is_valid_set cfg s = true) : s.Nodup := by
  unfold is_valid_set at h
  simp only [Bool.and_eq_true, decide_eq_true_eq] at h
  have hsub : s.dedup.Sublist s := s.dedup_sublist
  have hlen : s.dedup.length = s.length := by omega
  have : s.dedup = s := hsub.eq_of_length hlen
  simpa [this] using s.nodup_dedup

theorem sorted_concat_eq_some {a b : Option (List Nat)} {s : List Nat}
    (h : sorted_concat a b = some s) :
    ∃ x y, a = some x ∧ b = some y ∧ s = List.insertionSort (· ≤ ·) (x ++ y) := by
  match a, b with
  | some x, some y =>
    refine ⟨x, y, rfl, rfl, ?_⟩
    simpa [sorted_concat] using h.symm
  | none, _ => simp [sorted_concat] at h
  | some _, none => simp [sorted_concat] at h

theorem sorted_concat_sorted {a b : Option (List Nat)} {s : List Nat}
    (h : sorted_concat a b = some s) : List.Sorted (· ≤ ·) s := by
  obtain ⟨x, y, -, -, rfl⟩ := sorted_concat_eq_some h
  exact List.sorted_insertionSort _ (x ++ y)

theorem sorted_concat_none_right (a : Option (List Nat)) :
    sorted_concat a none = none := by
  cases a <;> rfl

theorem keep_valid_eq_some {cfg : Config} {o : Option (List Nat)} {nm' : String}
    {s : List Nat} {nm : String}
    (h : keep_valid cfg (o, nm') = some (s, nm)) :
    o = some s ∧ is_valid_set cfg s = true ∧ nm' = nm := by
  match o with
  | none => simp [keep_valid] at h
  | some numbers =>
    by_cases hv : is_valid_set cfg numbers = true
    · simp only [keep_valid, hv, if_true] at h
      rw [Option.some.injEq, Prod.mk.injEq] at h
      obtain ⟨rfl, rfl⟩ := h
      exact ⟨rfl, hv, rfl⟩
    · simp [keep_valid, hv] at h

/-- Membership in the output of generate_sets forces a valid, ≤-sorted
candidate: every attempt that survives the filter passed _is_valid_set, and
every successful strategy run ends in sorted(...). -/
theorem generate_sets_mem_spec {cfg : Config} {ωwr : Nat → List Nat}
    {ωhl : Nat → List Nat × List Nat} {ωpb : Nat → Fin 3 × List Nat × List Nat}
    {s : List Nat} {nm : String}
    (h : (s, nm) ∈ generate_sets cfg ωwr ωhl ωpb) :
    is_valid_set cfg s = true ∧ List.Sorted (· ≤ ·) s := by
  unfold generate_sets at h
  rw [List.mem_filterMap] at h
  obtain ⟨⟨o, nm'⟩, hmem, hf⟩ := h
  obtain ⟨ho, hv, rfl⟩ := keep_valid_eq_some hf
  subst ho
  refine ⟨hv, ?_⟩
  -- the candidate comes from one of the three strategies, each of which
  -- sorts its output
  simp only [List.mem_append, List.mem_map] at hmem
  rcases hmem with (⟨i, -, heq⟩ | ⟨i, -, heq⟩) | ⟨i, -, heq⟩
  · have hgen : generate_weighted_random cfg (ωwr i) = some s := by
      simpa using congrArg Prod.fst heq
    unfold generate_weighted_random at hgen
    obtain ⟨l, -, hl⟩ := Option.map_eq_some'.mp hgen
    exact hl ▸ List.sorted_insertionSort _ l
  · have hgen : generate_high_low_mix cfg (ωhl i) = some s := by
      simpa using congrArg Prod.fst heq
    unfold generate_high_low_mix at hgen
    exact sorted_concat_sorted hgen
  · have hgen : generate_prime_balanced cfg (ωpb i) = some s := by
      simpa using congrArg Prod.fst heq
    unfold generate_prime_balanced at hgen
    split at hgen
    · simp at hgen
    · exact sorted_concat_sorted hgen

/- ================= claim theorems ================= -/

/-- C1.  Every candidate set returned by generate_sets is valid: exactly
numbers_to_select entries, pairwise distinct, all within
[1, number_pool]; invalid candidates never reach the caller, for every
configuration and every outcome of the sampling oracles. -/
theorem generate_sets_valid (cfg : Config) (ωwr : Nat → List Nat)
    (ωhl : Nat → List Nat × List Nat) (ωpb : Nat → Fin 3 × List Nat × List Nat)
    (s : List Nat) (nm : String)
    (h : (s, nm) ∈ generate_sets cfg ωwr ωhl ωpb) :
    s.length = cfg.numbers_to_select ∧ s.Nodup ∧
    ∀ n ∈ s, 1 ≤ n ∧ n ≤ cfg.number_pool := by
  obtain ⟨hv, -⟩ := generate_sets_mem_spec h
  refine ⟨?_, is_valid_set_nodup hv, ?_⟩
  · unfold is_valid_set at hv
    simp only [Bool.and_eq_true, decide_eq_true_eq] at hv
    exact hv.1.1
  · unfold is_valid_set at hv
    simp only [Bool.and_eq_true, decide_eq_true_eq, List.all_eq_true] at hv
    intro n hn
    exact hv.2 n hn

/-- C1 witness: the oracles above make generate_sets return the candidate
[1, 2, 3] under the weighted-random strategy, and the theorem applies. -/
theorem generate_sets_valid_witness :
    ([1, 2, 3] : List Nat).length = cfg10.numbers_to_select ∧
    ([1, 2, 3] : List Nat).Nodup ∧
    ∀ n ∈ ([1, 2, 3] : List Nat), 1 ≤ n ∧ n ≤ cfg10.number_pool :=
  generate_sets_valid cfg10 wr_oracle hl_oracle pb_oracle [1, 2, 3]
    "weighted_random" (by decide)

/-- C10.  Every candidate set returned by generate_sets, from any of the
three strategies, is sorted in ascending order: each strategy ends in
sorted(...), and the validity filter guarantees distinctness, so the order
is strictly increasing. -/
theorem generate_sets_sorted (cfg : Config) (ωwr : Nat → List Nat)
    (ωhl : Nat → List Nat × List Nat) (ωpb : Nat → Fin 3 × List Nat × List Nat)
    (s : List Nat) (nm : String)
    (h : (s, nm) ∈ generate_sets cfg ωwr ωhl ωpb) :
    List.Sorted (· < ·) s := by
  obtain ⟨hv, hs⟩ := generate_sets_mem_spec h
  exact hs.lt_of_le (is_valid_set_nodup hv)

/-- C10 witness: the high-low candidate [1, 6, 7] produced by the witness
oracles is strictly ascending. -/
theorem generate_sets_sorted_witness : List.Sorted (· < ·) ([1, 6, 7] : List Nat) :=
  generate_sets_sorted cfg10 wr_oracle hl_oracle pb_oracle [1, 6, 7]
    "high_low_mix" (by decide)

/-- C8.  When the configuration makes the high partition empty
(low_number_max ≥ number_pool), every high-low attempt raises and is
discarded: generate_high_low_mix yields none for every oracle, generate_sets
(a total function in this model, so it always returns normally) does not
depend on the high-low oracle at all, and no returned candidate carries the
high_low_mix label; the other strategies are unaffected, so the run returns
possibly fewer sets than requested rather than raising. -/
theorem high_low_empty_partition (cfg : Config)
    (hlow : cfg.number_pool ≤ cfg.low_number_max)
    (hk : 1 ≤ cfg.numbers_to_select) :
    (∀ ω, generate_high_low_mix cfg ω = none) ∧
    (∀ ωwr ωhl ωhl' ωpb,
      generate_sets cfg ωwr ωhl ωpb = generate_sets cfg ωwr ωhl' ωpb) ∧
    (∀ ωwr ωhl ωpb s nm,
      (s, nm) ∈ generate_sets cfg ωwr ωhl ωpb → nm ≠ "high_low_mix") := by
  have hhigh : (number_pool cfg).filter (fun n => decide (cfg.low_number_max < n)) = [] := by
    rw [List.filter_eq_nil_iff]
    intro n hn
    unfold number_pool at hn
    rw [List.mem_range'_1] at hn
    simp only [decide_eq_true_eq, Nat.not_lt]
    omega
  have hnone : ∀ ω, generate_high_low_mix cfg ω = none := by
    intro ω
    unfold generate_high_low_mix
    rw [hhigh]
    have hsz : ¬ (cfg.numbers_to_select - cfg.numbers_to_select / 2 ≤
        ([] : List Nat).length) := by
      simp only [List.length_nil, Nat.le_zero]
      omega
    rw [show np_choice [] (cfg.numbers_to_select - cfg.numbers_to_select / 2) ω.2
        = none from if_neg (by intro hc; exact hsz hc.1)]
    exact sorted_concat_none_right _
  refine ⟨hnone, ?_, ?_⟩
  · intro ωwr ωhl ωhl' ωpb
    simp only [generate_sets]
    have hmap : ∀ (m : Nat) (f : Nat → List Nat × List Nat),
        (List.range m).map (fun i => (generate_high_low_mix cfg (f i), "high_low_mix"))
          = (List.range m).map
              (fun i => ((none : Option (List Nat)), "high_low_mix")) := by
      intro m f
      exact List.map_congr_left (fun i _ => by rw [hnone])
    rw [hmap _ ωhl, hmap _ ωhl']
  · intro ωwr ωhl ωpb s nm h
    unfold generate_sets at h
    rw [List.mem_filterMap] at h
    obtain ⟨⟨o, nm'⟩, hmem, hf⟩ := h
    obtain ⟨ho, -, hnm⟩ := keep_valid_eq_some hf
    subst ho
    subst hnm
    simp only [List.mem_append, List.mem_map] at hmem
    rcases hmem with (⟨i, -, heq⟩ | ⟨i, -, heq⟩) | ⟨i, -, heq⟩
    · have hname : nm' = "weighted_random" := by
        simpa using (congrArg Prod.snd heq).symm
      rw [hname]
      decide
    · have hbad : generate_high_low_mix cfg (ωhl i) = some s := by
        simpa using congrArg Prod.fst heq
      rw [hnone] at hbad
      exact absurd hbad (by simp)
    · have hname : nm' = "prime_balanced" := by
        simpa using (congrArg Prod.snd heq).symm
      rw [hname]
      decide

/-- C8 witness: with the concrete all-low configuration, a high-low attempt
fails outright. -/
theorem high_low_empty_partition_witness :
    generate_high_low_mix cfg_lowall ([1], [2]) = none :=
  (high_low_empty_partition cfg_lowall (by decide) (by decide)).1 ([1], [2])

theorem np_choice_eq_some {pool : List Nat} {size : Nat} {picks r : List Nat}
    (h : np_choice pool size picks = some r) :
    r = picks ∧ r.length = size ∧ r.Nodup ∧ ∀ x ∈ r, x ∈ pool := by
  unfold np_choice at h
  split at h
  · rename_i hc
    obtain rfl : picks = r := Option.some.inj h
    exact ⟨rfl, hc.2.1, hc.2.2.1, hc.2.2.2⟩
  · simp at h

theorem lookup_map_pair (l : List Nat) (f : Nat → Nat) (n : Nat) :
    (l.map (fun v => (v, f v))).lookup n = if n ∈ l then some (f n) else none := by
  induction l with
  | nil => simp [List.lookup]
  | cons x xs ih =>
    simp only [List.map_cons, List.lookup, List.mem_cons]
    by_cases hx : n = x
    · subst hx
      simp
    · have hbeq : (n == x) = false := beq_eq_false_iff_ne.mpr hx
      simp [hbeq, hx, ih]

/-- C3 counterexample: in the specification scenario (pool 1..10, draws
{1,2,3} and {4,5,6}), the number 7 belongs to the pool but has no entry at
all in the frequency result, rather than an entry with value 0. -/
theorem analyze_frequency_counterexample :
    7 ∈ number_pool cfg10 ∧ (analyze_frequency hist2).lookup 7 = none := by
  decide

/-- C3 amended: analyze_frequency returns the correct appearance count for
every number that appears at least once, and no entry (rather than an entry
0) for a number that never appears. -/
theorem analyze_frequency_lookup (hist : List (List Nat)) (n : Nat) :
    (analyze_frequency hist).lookup n =
      if 0 < hist.flatten.count n then some (hist.flatten.count n) else none := by
  unfold analyze_frequency
  rw [lookup_map_pair]
  by_cases hmem : n ∈ List.insertionSort (· ≤ ·) hist.flatten.dedup
  · rw [if_pos hmem]
    have hj : n ∈ hist.flatten := by
      have := (List.perm_insertionSort (· ≤ ·) hist.flatten.dedup).mem_iff.mp hmem
      simpa [List.mem_dedup] using this
    rw [if_pos (List.count_pos_iff.mpr hj)]
  · rw [if_neg hmem, if_neg]
    intro hpos
    apply hmem
    rw [(List.perm_insertionSort (· ≤ ·) hist.flatten.dedup).mem_iff, List.mem_dedup]
    exact List.count_pos_iff.mp hpos

/-- C4 counterexample: on the specification scenario itself (a non-empty
table over pool 1..10 where 7 never appears), analyze_recency raises
(KeyError on get_loc(NaN)) instead of returning a maximally-stale value;
the operation is not total. -/
theorem analyze_recency_counterexample :
    hist2 ≠ [] ∧ analyze_recency cfg10 hist2 = none := by
  decide

/-- C4 amended: when every pool number appears somewhere in the table,
analyze_recency succeeds and assigns to each pool number the count of draws
elapsed since its most recent appearance, counted from the end of the table
(so a number of the final draw gets 0); but when some pool number has never
appeared, the whole call raises instead of producing a sentinel. -/
theorem analyze_recency_appeared (cfg : Config) (hist : List (List Nat))
    (h : ∀ n ∈ number_pool cfg, ∃ i, i < hist.length ∧ n ∈ hist.getD i []) :
    ∃ r, analyze_recency cfg hist = some r ∧
      ∀ n ∈ number_pool cfg, ∃ L : Nat,
        last_occurrence hist n = (L : WithBot Nat) ∧
        L < hist.length ∧ n ∈ hist.getD L [] ∧
        (∀ i, i < hist.length → n ∈ hist.getD i [] → i ≤ L) ∧
        r.lookup n = some (hist.length - L - 1) := by
  have hL : ∀ n ∈ number_pool cfg, ∃ L : Nat,
      last_occurrence hist n = (L : WithBot Nat) ∧
      L < hist.length ∧ n ∈ hist.getD L [] ∧
      ∀ i, i < hist.length → n ∈ hist.getD i [] → i ≤ L := by
    intro n hn
    obtain ⟨i, hi, hrow⟩ := h n hn
    have hne : ((List.range hist.length).filter
        (fun j => decide (n ∈ hist.getD j []))) ≠ [] := by
      intro hnil
      have : i ∈ ((List.range hist.length).filter
          (fun j => decide (n ∈ hist.getD j []))) := by
        rw [List.mem_filter, List.mem_range]
        exact ⟨hi, by simpa using hrow⟩
      rw [hnil] at this
      exact absurd this (List.not_mem_nil i)
    obtain ⟨L, hmax⟩ : ∃ L : Nat, last_occurrence hist n = (L : WithBot Nat) := by
      unfold last_occurrence
      rcases hm : ((List.range hist.length).filter
          (fun j => decide (n ∈ hist.getD j []))).maximum with _ | L
      · exact absurd (List.maximum_eq_bot.mp hm) hne
      · exact ⟨L, rfl⟩
    obtain ⟨hLmem, hLmax⟩ := List.maximum_eq_coe_iff.mp hmax
    rw [List.mem_filter, List.mem_range] at hLmem
    refine ⟨L, hmax, hLmem.1, by simpa using hLmem.2, ?_⟩
    intro i hi2 hrow2
    exact hLmax i (by rw [List.mem_filter, List.mem_range]; exact ⟨hi2, by simpa using hrow2⟩)
  have hguard : ((number_pool cfg).all
      (fun n => decide (last_occurrence hist n ≠ ⊥))) = true := by
    rw [List.all_eq_true]
    intro n hn
    obtain ⟨L, hmax, -⟩ := hL n hn
    simp [hmax]
  refine ⟨(number_pool cfg).map
      (fun n => (n, hist.length - (last_occurrence hist n).unbot' 0 - 1)), ?_, ?_⟩
  · unfold analyze_recency
    rw [if_pos hguard]
  · intro n hn
    obtain ⟨L, hmax, h1, h2, h3⟩ := hL n hn
    refine ⟨L, hmax, h1, h2, h3, ?_⟩
    rw [lookup_map_pair (f := fun n => hist.length - (last_occurrence hist n).unbot' 0 - 1),
        if_pos hn, hmax]
    rfl

/-- C4 witness: over pool 1..3 with the two-draw table [[1,2,3],[3,1,2]],
every pool number appears and the theorem applies. -/
theorem analyze_recency_appeared_witness :
    ∃ r, analyze_recency cfg3 hist3 = some r ∧
      ∀ n ∈ number_pool cfg3, ∃ L : Nat,
        last_occurrence hist3 n = (L : WithBot Nat) ∧
        L < hist3.length ∧ n ∈ hist3.getD L [] ∧
        (∀ i, i < hist3.length → n ∈ hist3.getD i [] → i ≤ L) ∧
        r.lookup n = some (hist3.length - L - 1) :=
  analyze_recency_appeared cfg3 hist3 (by decide)

/-- C7 counterexample: for pool 1..10 there are four primes (2, 3, 5, 7);
the first prime-count option of the code is max(1, 4 // 3) = 1, while the
three options the claim describes (one-third rounded up with minimum 1,
half, half plus one) are 2, 2 and 3 — the achievable target 1 is not among
them. -/
theorem prime_count_options_counterexample :
    prime_count_options (prime_numbers cfg10) = [1, 2, 3] ∧
    prime_count_options_spec (prime_numbers cfg10) = [2, 2, 3] ∧
    prime_count_options (prime_numbers cfg10) ≠
      prime_count_options_spec (prime_numbers cfg10) ∧
    (1 : Nat) ∉ prime_count_options_spec (prime_numbers cfg10) := by
  decide

/-- C7 amended: on every invocation, the prime-count target is the entry of
[max(1, primes // 3), primes // 2, primes // 2 + 1] selected by the uniform
three-way random index — one-third of the available primes rounded DOWN
with a minimum of 1, half, or half plus one — and a successful candidate
realizes exactly that many primes. -/
theorem prime_balanced_target (cfg : Config) (ω : Fin 3 × List Nat × List Nat)
    (s : List Nat) (h : generate_prime_balanced cfg ω = some s) :
    s.countP isprime = (prime_count_options (prime_numbers cfg)).getD (ω.1 : Nat) 0 ∧
    ∀ i : Fin 3, (prime_count_options (prime_numbers cfg)).getD (i : Nat) 0 ∈
      [max 1 ((prime_numbers cfg).length / 3), (prime_numbers cfg).length / 2,
       (prime_numbers cfg).length / 2 + 1] := by
  constructor
  · unfold generate_prime_balanced at h
    split at h
    · simp at h
    obtain ⟨x, y, hx, hy, rfl⟩ := sorted_concat_eq_some h
    obtain ⟨-, hxlen, -, hxmem⟩ := np_choice_eq_some hx
    obtain ⟨-, -, -, hymem⟩ := np_choice_eq_some hy
    rw [(List.perm_insertionSort (· ≤ ·) _).countP_eq, List.countP_append]
    have hx1 : x.countP isprime = x.length := by
      rw [List.countP_eq_length]
      intro a ha
      exact List.of_mem_filter (hxmem a ha)
    have hy1 : y.countP isprime = 0 := by
      rw [List.countP_eq_zero]
      intro a ha
      have hmem := hymem a ha
      rw [List.mem_filter] at hmem
      obtain ⟨hpool, hnc⟩ := hmem
      intro hp
      have hin : a ∈ prime_numbers cfg := List.mem_filter.mpr ⟨hpool, hp⟩
      have : (prime_numbers cfg).contains a = true := List.elem_eq_true_of_mem hin
      rw [this] at hnc
      exact absurd hnc (by decide)
    rw [hx1, hy1, hxlen, Nat.add_zero]
  · intro i
    unfold prime_count_options
    fin_cases i <;> simp

/-- C7 witness: on pool 1..10 with oracle index 0, the strategy succeeds
with candidate [4, 5, 6], which contains exactly one prime, the selected
target max(1, 4 // 3) = 1. -/
theorem prime_balanced_target_witness :
    ([4, 5, 6] : List Nat).countP isprime =
      (prime_count_options (prime_numbers cfg10)).getD (((0 : Fin 3) : Fin 3) : Nat) 0 ∧
    ∀ i : Fin 3, (prime_count_options (prime_numbers cfg10)).getD (i : Nat) 0 ∈
      [max 1 ((prime_numbers cfg10).length / 3), (prime_numbers cfg10).length / 2,
       (prime_numbers cfg10).length / 2 + 1] :=
  prime_balanced_target cfg10 (0, [5], [4, 6]) [4, 5, 6] (by decide)

theorem dict_incr_sum {key : Nat} : ∀ {d d2 : List (Nat × Nat)},
    dict_incr d key = some d2 → dict_sum d2 = dict_sum d + 1 := by
  intro d
  induction d with
  | nil => intro d2 h; simp [dict_incr] at h
  | cons p rest ih =>
    intro d2 h
    obtain ⟨k, v⟩ := p
    unfold dict_incr at h
    by_cases hk : k = key
    · rw [if_pos hk, Option.some.injEq] at h
      subst h
      simp only [dict_sum, List.map_cons, List.sum_cons]
      omega
    · rw [if_neg hk] at h
      obtain ⟨d3, h3, rfl⟩ := Option.map_eq_some'.mp h
      have := ih h3
      simp only [dict_sum, List.map_cons, List.sum_cons] at this ⊢
      omega

theorem process_sets_sum {cfg : Config} {target : List Nat} :
    ∀ {sets : List (List Nat × String)} {mc : List (Nat × Nat)} {best : Nat}
      {hp : List (List Nat)} {mc2 : List (Nat × Nat)} {b : Nat}
      {hp2 : List (List Nat)},
    process_sets cfg target sets mc best hp = some (mc2, b, hp2) →
    dict_sum mc2 = dict_sum mc + sets.length := by
  intro sets
  induction sets with
  | nil =>
    intro mc best hp mc2 b hp2 h
    simp only [process_sets, Option.some.injEq, Prod.mk.injEq] at h
    obtain ⟨rfl, -, -⟩ := h
    simp
  | cons p rest ih =>
    intro mc best hp mc2 b hp2 h
    obtain ⟨gs, str⟩ := p
    unfold process_sets at h
    rcases hd : dict_incr mc (match_count gs target) with _ | mc3
    · rw [hd] at h; simp at h
    · rw [hd] at h
      simp only at h
      have hsum := ih h
      have hstep := dict_incr_sum hd
      simp only [List.length_cons]
      omega

theorem process_draws_sum {cfg : Config} {sets : List (List Nat × String)} :
    ∀ {draws : List (List Nat)} {mc : List (Nat × Nat)} {best : List Nat}
      {hp : List (List Nat)} {mc2 : List (Nat × Nat)} {best2 : List Nat}
      {hp2 : List (List Nat)},
    process_draws cfg sets draws mc best hp = some (mc2, best2, hp2) →
    dict_sum mc2 = dict_sum mc + draws.length * sets.length := by
  intro draws
  induction draws with
  | nil =>
    intro mc best hp mc2 best2 hp2 h
    simp only [process_draws, Option.some.injEq, Prod.mk.injEq] at h
    obtain ⟨rfl, -, -⟩ := h
    simp
  | cons draw rest ih =>
    intro mc best hp mc2 best2 hp2 h
    unfold process_draws at h
    rcases hd : process_sets cfg draw sets mc 0 hp with _ | ⟨mc3, b, hp3⟩
    · rw [hd] at h; simp at h
    · rw [hd] at h
      simp only at h
      have hsum := ih h
      have hstep := process_sets_sum hd
      simp only [List.length_cons]
      have : (rest.length + 1) * sets.length
          = rest.length * sets.length + sets.length := by ring
      omega

/-- C5.  For a table with at least two draws, the validator tests exactly
min(test_draws, draws - 1) draws, namely the ones immediately preceding the
most recent draw: the table decomposes as prefix ++ window ++ [most recent
draw], so the final draw is never part of the tested window, and
draws_tested of any returned result equals that minimum. -/
theorem validator_window (cfg : Config) (hist : List (List Nat))
    (h2 : 2 ≤ hist.length) :
    (test_window cfg hist).length = min cfg.test_draws (hist.length - 1) ∧
    (∃ p last, hist = p ++ test_window cfg hist ++ [last]) ∧
    ∀ sets r, validate_against_historical cfg hist sets = some r →
      r.draws_tested = min cfg.test_draws (hist.length - 1) := by
  have hlen : (test_window cfg hist).length = min cfg.test_draws (hist.length - 1) := by
    unfold test_window
    rw [List.length_drop, List.length_dropLast]
    omega
  refine ⟨hlen, ?_, ?_⟩
  · have hone : (hist.drop (hist.length - 1)).length = 1 := by
      rw [List.length_drop]; omega
    obtain ⟨a, ha⟩ := List.length_eq_one.mp hone
    refine ⟨hist.dropLast.take
      (hist.length - 1 - min cfg.test_draws (hist.length - 1)), a, ?_⟩
    conv_lhs => rw [← List.take_append_drop (hist.length - 1) hist]
    rw [ha, ← List.dropLast_eq_take]
    conv_lhs => rw [← List.take_append_drop
      (hist.length - 1 - min cfg.test_draws (hist.length - 1)) hist.dropLast]
    rw [List.append_assoc]
    unfold test_window
    rw [List.append_assoc]
  · intro sets r h
    unfold validate_against_historical at h
    rcases hp : process_draws cfg sets (test_window cfg hist)
        ((List.range 7).map (fun i => (i, 0))) [] [] with _ | ⟨mc, best, hpf⟩
    · rw [hp] at h; simp at h
    · rw [hp] at h
      simp only [Option.some.injEq] at h
      rw [← h]
      exact hlen

/-- C5 witness: for the two-draw table hist2 under cfg10 the theorem
applies. -/
theorem validator_window_witness :
    (test_window cfg10 hist2).length = min cfg10.test_draws (hist2.length - 1) ∧
    (∃ p last, hist2 = p ++ test_window cfg10 hist2 ++ [last]) ∧
    ∀ sets r, validate_against_historical cfg10 hist2 sets = some r →
      r.draws_tested = min cfg10.test_draws (hist2.length - 1) :=
  validator_window cfg10 hist2 (by decide)

/-- C6.  Whenever validate_against_historical completes with a result, the
sum of all match-count bucket values equals the number of tested draws
times the number of candidate sets: each (draw, set) pair increments
exactly one bucket. -/
theorem validation_match_counts_sum (cfg : Config) (hist : List (List Nat))
    (sets : List (List Nat × String)) (r : ValidationResult)
    (h : validate_against_historical cfg hist sets = some r) :
    dict_sum r.match_counts = r.draws_tested * sets.length := by
  unfold validate_against_historical at h
  rcases hp : process_draws cfg sets (test_window cfg hist)
      ((List.range 7).map (fun i => (i, 0))) [] [] with _ | ⟨mc, best, hpf⟩
  · rw [hp] at h; simp at h
  · rw [hp] at h
    simp only [Option.some.injEq] at h
    have hsum := process_draws_sum hp
    have hzero : dict_sum ((List.range 7).map (fun i => (i, 0))) = 0 := by decide
    rw [← h]
    simp only
    rw [hsum, hzero]
    ring

/-- C6 witness: one candidate against the single tested draw of hist2 puts
one comparison in bucket 3 and the bucket sum is 1 x 1. -/
theorem validation_match_counts_sum_witness :
    dict_sum resultW.match_counts = resultW.draws_tested * setsW.length :=
  validation_match_counts_sum cfg10 hist2 setsW resultW (by decide)

/-- C9 counterexample: a loaded row whose draw contains the duplicate
value 1 twice passes the load untouched, instead of failing it: the range
check is the only integrity check performed. -/
theorem load_duplicates_counterexample :
    ¬ ([1, 1, 2] : List Nat).Nodup ∧
    load_historical cfg10 [[1, 1, 2]] = some [[1, 1, 2]] := by
  decide

/-- C9 amended: the load is fail-fast on RANGE violations only — a loaded
table is returned whole with every column value in [1, number_pool], and
any out-of-range value fails the entire load with no partial table; but a
duplicate number within a draw is not detected. -/
theorem load_historical_range (cfg : Config) (rows : List (List Nat)) :
    (∀ t, load_historical cfg rows = some t → t = rows ∧
      ∀ row ∈ rows, ∀ j, j < cfg.numbers_to_select →
        1 ≤ row.getD j 0 ∧ row.getD j 0 ≤ cfg.number_pool) ∧
    ((∃ row ∈ rows, ∃ j, j < cfg.numbers_to_select ∧
        (row.getD j 0 < 1 ∨ cfg.number_pool < row.getD j 0)) →
      load_historical cfg rows = none) := by
  constructor
  · intro t ht
    unfold load_historical at ht
    by_cases hv : validate_data cfg rows = true
    · rw [if_pos hv, Option.some.injEq] at ht
      subst ht
      refine ⟨rfl, ?_⟩
      unfold validate_data at hv
      rw [List.all_eq_true] at hv
      intro row hrow j hj
      have hcol := hv j (List.mem_range.mpr hj)
      rw [List.all_eq_true] at hcol
      have hval := hcol row hrow
      simp only [Bool.and_eq_true, decide_eq_true_eq] at hval
      exact hval
    · rw [if_neg hv] at ht
      exact absurd ht (by simp)
  · rintro ⟨row, hrow, j, hj, hbad⟩
    unfold load_historical
    rw [if_neg]
    intro hv
    unfold validate_data at hv
    rw [List.all_eq_true] at hv
    have hcol := hv j (List.mem_range.mpr hj)
    rw [List.all_eq_true] at hcol
    have hval := hcol row hrow
    simp only [Bool.and_eq_true, decide_eq_true_eq] at hval
    omega

/-- C9 witness: a row with the out-of-range value 0 fails the whole load. -/
theorem load_historical_range_witness :
    load_historical cfg10 [[0, 2, 3]] = none :=
  (load_historical_range cfg10 [[0, 2, 3]]).2
    ⟨[0, 2, 3], by decide, 0, by decide, by decide⟩

theorem mem_zipWith_cases {α β γ : Type} {f : α → β → γ} :
    ∀ {as : List α} {bs : List β} {c : γ}, c ∈ List.zipWith f as bs →
      ∃ a ∈ as, ∃ b ∈ bs, c = f a b := by
  intro as
  induction as with
  | nil => intro bs c h; simp at h
  | cons a as ih =>
    intro bs c h
    cases bs with
    | nil => simp at h
    | cons b bs =>
      rw [List.zipWith_cons_cons, List.mem_cons] at h
      rcases h with rfl | h
      · exact ⟨a, List.mem_cons_self .., b, List.mem_cons_self .., rfl⟩
      · obtain ⟨a2, ha2, b2, hb2, rfl⟩ := ih h
        exact ⟨a2, List.mem_cons_of_mem _ ha2, b2, List.mem_cons_of_mem _ hb2, rfl⟩

theorem one_le_length_cast_le_sum {l : List Rat} (h : ∀ x ∈ l, 1 ≤ x) :
    (l.length : Rat) ≤ l.sum := by
  induction l with
  | nil => simp
  | cons x xs ih =>
    simp only [List.length_cons, List.sum_cons]
    have hx := h x (List.mem_cons_self ..)
    have hxs := ih (fun y hy => h y (List.mem_cons_of_mem _ hy))
    push_cast
    linarith

theorem sum_map_div (l : List Rat) (s : Rat) :
    (l.map (fun x => x / s)).sum = l.sum / s := by
  induction l with
  | nil => simp
  | cons x xs ih => simp [ih, add_div]

theorem freq_step_spec {cfg : Config} {hist : List (List Nat)} {w1 : List Rat}
    (hfw : 0 ≤ cfg.frequency_weight)
    (h : freq_step cfg hist = some w1) :
    w1.length = cfg.number_pool ∧ ∀ x ∈ w1, 1 ≤ x := by
  unfold freq_step at h
  by_cases h1 : analyze_frequency hist = []
  · rw [if_pos h1, Option.some.injEq] at h
    subst h
    constructor
    · exact List.length_replicate ..
    · intro x hx
      rw [List.eq_of_mem_replicate hx]
  · rw [if_neg h1] at h
    by_cases h2 : (analyze_frequency hist).length = cfg.number_pool
    · rw [if_pos h2, Option.some.injEq] at h
      subst h
      constructor
      · rw [List.length_zipWith, List.length_replicate, List.length_map, h2]
        exact Nat.min_self _
      · intro x hx
        obtain ⟨a, ha, b, hb, rfl⟩ := mem_zipWith_cases hx
        rw [List.eq_of_mem_replicate ha]
        obtain ⟨p, -, rfl⟩ := List.mem_map.mp hb
        have hb0 : (0 : Rat) ≤ (p.2 : Rat) := Nat.cast_nonneg _
        have hs0 : (0 : Rat) ≤ ((analyze_frequency hist).map
            (fun (p : Nat × Nat) => (p.2 : Rat))).sum :=
          List.sum_nonneg (by
            intro y hy
            obtain ⟨q, -, rfl⟩ := List.mem_map.mp hy
            exact Nat.cast_nonneg _)
        have : (0 : Rat) ≤ (p.2 : Rat) / (((analyze_frequency hist).map
            (fun (p : Nat × Nat) => (p.2 : Rat))).sum) * cfg.frequency_weight * 10 := by
          apply mul_nonneg (mul_nonneg (div_nonneg hb0 hs0) hfw)
          norm_num
        linarith
    · rw [if_neg h2] at h
      exact absurd h (by simp)

theorem recent_step_spec {cfg : Config} {hist : List (List Nat)} {w1 : List Rat}
    (hrw : 0 ≤ cfg.recent_weight) (hw1 : ∀ x ∈ w1, 1 ≤ x) :
    (recent_step cfg hist w1).length = min w1.length cfg.number_pool ∧
    ∀ x ∈ recent_step cfg hist w1, 1 ≤ x := by
  constructor
  · unfold recent_step
    rw [List.length_zipWith, List.length_map]
    unfold calculate_recent_counts
    rw [List.length_map]
    unfold number_pool
    rw [List.length_range']
  · intro x hx
    unfold recent_step at hx
    obtain ⟨a, ha, b, hb, rfl⟩ := mem_zipWith_cases hx
    have ha1 := hw1 a ha
    obtain ⟨c, -, rfl⟩ := List.mem_map.mp hb
    have hb0 : (0 : Rat) ≤ (c : Rat) := Nat.cast_nonneg _
    have hs0 : (0 : Rat) ≤ ((calculate_recent_counts cfg hist).map
        (fun (c2 : Nat) => (c2 : Rat))).sum :=
      List.sum_nonneg (by
        intro y hy
        obtain ⟨q, -, rfl⟩ := List.mem_map.mp hy
        exact Nat.cast_nonneg _)
    have : (0 : Rat) ≤ (c : Rat) / (((calculate_recent_counts cfg hist).map
        (fun (c2 : Nat) => (c2 : Rat))).sum) * cfg.recent_weight * 5 := by
      apply mul_nonneg (mul_nonneg (div_nonneg hb0 hs0) hrw)
      norm_num
    linarith

theorem random_step_spec {cfg : Config} {d : List Rat} {w2 : List Rat}
    (hrw : 0 ≤ cfg.random_weight) (hd : ∀ x ∈ d, 0 ≤ x)
    (hw2 : ∀ x ∈ w2, 1 ≤ x) :
    (random_step cfg d w2).length = min w2.length d.length ∧
    ∀ x ∈ random_step cfg d w2, 1 ≤ x := by
  constructor
  · unfold random_step
    rw [List.length_zipWith]
  · intro x hx
    unfold random_step at hx
    obtain ⟨a, ha, b, hb, rfl⟩ := mem_zipWith_cases hx
    have ha1 := hw2 a ha
    have hb0 := hd b hb
    have : (0 : Rat) ≤ b * (7/10) * cfg.random_weight * 15 := by
      apply mul_nonneg (mul_nonneg (mul_nonneg hb0 (by norm_num)) hrw)
      norm_num
    linarith

theorem normalize_spec {w3 : List Rat} (h1 : ∀ x ∈ w3, 1 ≤ x)
    (h2 : 0 < w3.length) :
    (∀ x ∈ normalize w3, 0 < x) ∧ (normalize w3).sum = 1 := by
  have hs : (0 : Rat) < w3.sum := by
    have hlen : (0 : Rat) < (w3.length : Rat) := by
      exact_mod_cast h2
    exact lt_of_lt_of_le hlen (one_le_length_cast_le_sum h1)
  constructor
  · intro x hx
    unfold normalize at hx
    obtain ⟨y, hy, rfl⟩ := List.mem_map.mp hx
    exact div_pos (lt_of_lt_of_le one_pos (h1 y hy)) hs
  · unfold normalize
    rw [sum_map_div]
    exact div_self (ne_of_gt hs)

/-- C2.  Whenever _calculate_initial_weights completes on a non-empty
historical table under a valid configuration, the produced weight vector is
strictly positive at every pool number and sums exactly to 1 (so in
particular within the 1e-9 tolerance the specification allows the floating
realisation), for every nonnegative Dirichlet perturbation. -/
theorem initial_weights_pos_sum (cfg : Config) (hist : List (List Nat))
    (d : List Rat) (w : List Rat) (hv : cfg.Valid) (_hne : hist ≠ [])
    (hd : ∀ x ∈ d, 0 ≤ x)
    (hw : calculate_initial_weights cfg hist d = some w) :
    (∀ x ∈ w, 0 < x) ∧ w.sum = 1 := by
  unfold calculate_initial_weights at hw
  rcases hf : freq_step cfg hist with _ | w1
  · rw [hf] at hw
    exact absurd hw (by simp)
  rw [hf] at hw
  simp only at hw
  by_cases hdl : d.length = cfg.number_pool
  · rw [if_pos hdl, Option.some.injEq] at hw
    subst hw
    obtain ⟨hlen1, hge1⟩ := freq_step_spec hv.2.2.1 hf
    obtain ⟨hlen2, hge2⟩ := recent_step_spec hv.2.2.2.2.1 hge1
    obtain ⟨hlen3, hge3⟩ := random_step_spec hv.2.2.2.2.2.2.1 hd hge2
    have hn : 0 < cfg.number_pool := lt_trans Nat.zero_lt_one hv.1
    have hlen : 0 < (random_step cfg d (recent_step cfg hist w1)).length := by
      rw [hlen3, hlen2, hlen1, hdl]
      simpa using hn
    exact normalize_spec hge3 hlen
  · rw [if_neg hdl] at hw
    exact absurd hw (by simp)

/-- C2 witness: over pool 1..2 with the one-draw table hist1, zero weight
factors and the zero Dirichlet sample, the computation completes with the
vector [1/2, 1/2], which is positive and sums to 1. -/
theorem initial_weights_pos_sum_witness :
    (∀ x ∈ ([1/2, 1/2] : List Rat), 0 < x) ∧
    ([1/2, 1/2] : List Rat).sum = 1 :=
  initial_weights_pos_sum cfg0 hist1 [0, 0] [1/2, 1/2]
    (by unfold Config.Valid cfg0; norm_num)
    (by decide)
    (by
      intro x hx
      simp only [List.mem_cons, List.not_mem_nil, or_false] at hx
      rcases hx with rfl | rfl <;> norm_num)
    (by
      have hfreq : analyze_frequency hist1 = [(1, 1), (2, 1)] := by decide
      have hrec : calculate_recent_counts cfg0 hist1 = [1, 1] := by decide
      have hstep : freq_step cfg0 hist1 = some [1, 1] := by
        unfold freq_step
        rw [hfreq]
        rw [if_neg (by decide), if_pos (by decide)]
        have h2 : List.replicate cfg0.number_pool (1 : Rat) = [1, 1] := rfl
        rw [h2]
        norm_num [cfg0]
      have hrs : recent_step cfg0 hist1 [1, 1] = [1, 1] := by
        unfold recent_step
        rw [hrec]
        norm_num [cfg0]
      have hrand : random_step cfg0 [0, 0] [1, 1] = [1, 1] := by
        unfold random_step
        norm_num [cfg0]
      unfold calculate_initial_weights
      rw [hstep]
      simp only
      rw [if_pos (by decide : ([0, 0] : List Rat).length = cfg0.number_pool)]
      rw [hrs, hrand]
      unfold normalize
      norm_num)

end Lotto
